import Mathlib

/-!
Verification development for the Impala-lzo LZOP text scanner.

The repository ships only the class header `src/hdfs-lzo-text-scanner.h`;
the implementation file `hdfs-lzo-text-scanner.cc` is not part of the
sources.  Data-model declarations (checksum kinds, header structure,
constants, field `disable_checksum_`) are translated from the header.
Behaviour of the member functions (`ReadHeader`, `ReadIndexFile`,
`FindFirstBlock`, `IssueFileRanges`, `ReadAndDecompressData`, `ReadData`,
`Checksum`, `Open`, `Close`) is modelled from the specification, as noted
on each definition.
-/

namespace ImpalaLzo

/-- Translated from `src/hdfs-lzo-text-scanner.h` line 127:
block size bound used by LZOP; compressed blocks are no bigger than this. -/
def MAX_BLOCK_COMPRESSED_SIZE : Nat := 256 * 1024

/-- Translated from `src/hdfs-lzo-text-scanner.h` line 131: fixed minimal header size. -/
def MIN_HEADER_SIZE : Nat := 32

/-- Translated from `src/hdfs-lzo-text-scanner.h` line 135: over-estimate of the header size. -/
def HEADER_SIZE : Nat := 300

/-- Translated from `src/hdfs-lzo-text-scanner.h` lines 120-124:
the checksum kinds a block may carry. -/
inductive LzoChecksum
  | CHECK_NONE
  | CHECK_CRC32
  | CHECK_ADLER
deriving DecidableEq

/-- Translated from `src/hdfs-lzo-text-scanner.h` lines 138-146: header
information shared by all scanners on one file.  File offsets are
`int64_t` in the source, embedded as `Int`. -/
structure LzoFileHeader where
  input_checksum_type_ : LzoChecksum
  output_checksum_type_ : LzoChecksum
  header_size_ : Nat
  offsets : List Int

/-! ### Adler32

Modelled from the spec: the `ChecksumVerifier` component (§2) "computes and
compares CRC32/Adler32 digests over byte buffers"; its body lives in the
missing `hdfs-lzo-text-scanner.cc` (which delegates to the standard zlib
digests).  This is the standard Adler32: two running sums modulo 65521. -/

def MOD_ADLER : Nat := 65521

/-- One byte step of Adler32 on the pair (low sum, high sum). -/
def adlerStep (p : Nat × Nat) (c : Nat) : Nat × Nat :=
  ((p.1 + c) % MOD_ADLER, (p.2 + (p.1 + c) % MOD_ADLER) % MOD_ADLER)

/-- Modelled from the spec: the Adler32 digest of a byte buffer. -/
def adler32 (l : List Nat) : Nat :=
  (l.foldl adlerStep (1, 0)).2 * 65536 + (l.foldl adlerStep (1, 0)).1

/-- The low running sum of Adler32 on its own. -/
def adlerA (a : Nat) (l : List Nat) : Nat :=
  l.foldl (fun x c => (x + c) % MOD_ADLER) a

lemma adler_fst (l : List Nat) (a b : Nat) :
    (l.foldl adlerStep (a, b)).1 = adlerA a l := by
  induction l generalizing a b with
  | nil => rfl
  | cons c t ih =>
    simpa [adlerStep, adlerA, List.foldl_cons] using
      ih ((a + c) % MOD_ADLER) ((b + (a + c) % MOD_ADLER) % MOD_ADLER)

lemma adlerA_lt (l : List Nat) (a : Nat) (h : a < MOD_ADLER) : adlerA a l < MOD_ADLER := by
  induction l generalizing a with
  | nil => exact h
  | cons c t ih =>
    have : adlerA a (c :: t) = adlerA ((a + c) % MOD_ADLER) t := rfl
    rw [this]
    exact ih _ (Nat.mod_lt _ (by decide))

lemma adlerA_inj (l : List Nat) (a₁ a₂ : Nat) (h₁ : a₁ < MOD_ADLER) (h₂ : a₂ < MOD_ADLER)
    (hne : a₁ ≠ a₂) : adlerA a₁ l ≠ adlerA a₂ l := by
  induction l generalizing a₁ a₂ with
  | nil => exact hne
  | cons c t ih =>
    have e₁ : adlerA a₁ (c :: t) = adlerA ((a₁ + c) % MOD_ADLER) t := rfl
    have e₂ : adlerA a₂ (c :: t) = adlerA ((a₂ + c) % MOD_ADLER) t := rfl
    rw [e₁, e₂]
    apply ih _ _ (Nat.mod_lt _ (by decide)) (Nat.mod_lt _ (by decide))
    intro hmod
    apply hne
    have hmeq : a₁ + c ≡ a₂ + c [MOD MOD_ADLER] := hmod
    have := Nat.ModEq.add_right_cancel' c hmeq
    calc a₁ = a₁ % MOD_ADLER := (Nat.mod_eq_of_lt h₁).symm
    _ = a₂ % MOD_ADLER := this
    _ = a₂ := Nat.mod_eq_of_lt h₂

/-- Flipping one byte always changes the Adler32 digest. -/
lemma adler32_flip (l₁ l₂ : List Nat) (b b' : Nat) (hb : b < MOD_ADLER)
    (hb' : b' < MOD_ADLER) (hne : b ≠ b') :
    adler32 (l₁ ++ b :: l₂) ≠ adler32 (l₁ ++ b' :: l₂) := by
  intro hdig
  have hfst : ∀ c : Nat, ((l₁ ++ c :: l₂).foldl adlerStep (1, 0)).1 =
      adlerA ((adlerA 1 l₁ + c) % MOD_ADLER) l₂ := by
    intro c
    rw [List.foldl_append, adler_fst]
    have : adlerA (l₁.foldl adlerStep (1, 0)).1 (c :: l₂) =
        adlerA (((l₁.foldl adlerStep (1, 0)).1 + c) % MOD_ADLER) l₂ := rfl
    rw [this, adler_fst]
  have ha0 : adlerA 1 l₁ < MOD_ADLER := adlerA_lt l₁ 1 (by decide)
  have hstep : ((adlerA 1 l₁ + b) % MOD_ADLER) ≠ ((adlerA 1 l₁ + b') % MOD_ADLER) := by
    intro hmod
    apply hne
    have hmeq : b + adlerA 1 l₁ ≡ b' + adlerA 1 l₁ [MOD MOD_ADLER] := by
      unfold Nat.ModEq
      simpa [Nat.add_comm] using hmod
    have := Nat.ModEq.add_right_cancel' (adlerA 1 l₁) hmeq
    calc b = b % MOD_ADLER := (Nat.mod_eq_of_lt hb).symm
    _ = b' % MOD_ADLER := this
    _ = b' := Nat.mod_eq_of_lt hb'
  have hfin : ((l₁ ++ b :: l₂).foldl adlerStep (1, 0)).1 ≠
      ((l₁ ++ b' :: l₂).foldl adlerStep (1, 0)).1 := by
    rw [hfst b, hfst b']
    exact adlerA_inj l₂ _ _ (Nat.mod_lt _ (by decide)) (Nat.mod_lt _ (by decide)) hstep
  apply hfin
  have hlt₁ : ((l₁ ++ b :: l₂).foldl adlerStep (1, 0)).1 < 65536 := by
    rw [hfst b]
    exact lt_trans (adlerA_lt _ _ (Nat.mod_lt _ (by decide))) (by decide)
  have hlt₂ : ((l₁ ++ b' :: l₂).foldl adlerStep (1, 0)).1 < 65536 := by
    rw [hfst b']
    exact lt_trans (adlerA_lt _ _ (Nat.mod_lt _ (by decide))) (by decide)
  have hm : ∀ x y : Nat, y < 65536 → (x * 65536 + y) % 65536 = y := by
    intro x y hy
    rw [Nat.add_comm, Nat.add_mul_mod_self_right]
    exact Nat.mod_eq_of_lt hy
  have e₁ : adler32 (l₁ ++ b :: l₂) % 65536 = ((l₁ ++ b :: l₂).foldl adlerStep (1, 0)).1 := by
    simp only [adler32]
    exact hm _ _ hlt₁
  have e₂ : adler32 (l₁ ++ b' :: l₂) % 65536 = ((l₁ ++ b' :: l₂).foldl adlerStep (1, 0)).1 := by
    simp only [adler32]
    exact hm _ _ hlt₂
  rw [← e₁, ← e₂, hdig]

/-! ### CRC32

Modelled from the spec: standard (reflected) CRC32 with polynomial
0xEDB88320, initial value and final xor 0xFFFFFFFF, computed bit by bit. -/

def CRC_POLY : Nat := 0xEDB88320

/-- One bit round of CRC32. -/
def crcRound (r : Nat) : Nat :=
  if r % 2 = 1 then (r >>> 1) ^^^ CRC_POLY else r >>> 1

/-- Eight bit rounds of CRC32 (one byte). -/
def crcRound8 (r : Nat) : Nat :=
  crcRound (crcRound (crcRound (crcRound (crcRound (crcRound (crcRound (crcRound r)))))))

/-- Absorb one byte into the CRC32 state. -/
def crcUpdate (s c : Nat) : Nat := crcRound8 (s ^^^ c)

/-- Modelled from the spec: the CRC32 digest of a byte buffer. -/
def crc32 (l : List Nat) : Nat := (l.foldl crcUpdate 0xFFFFFFFF) ^^^ 0xFFFFFFFF

lemma shiftRight_one_lt (r : Nat) (h : r < 2 ^ 32) : r >>> 1 < 2 ^ 31 := by
  rw [Nat.shiftRight_one]
  omega

lemma crcRound_lt (r : Nat) (h : r < 2 ^ 32) : crcRound r < 2 ^ 32 := by
  unfold crcRound
  split
  · exact Nat.xor_lt_two_pow (lt_trans (shiftRight_one_lt r h) (by norm_num)) (by decide)
  · exact lt_trans (shiftRight_one_lt r h) (by norm_num)

lemma crcRound_inj (r₁ r₂ : Nat) (h₁ : r₁ < 2 ^ 32) (h₂ : r₂ < 2 ^ 32)
    (h : crcRound r₁ = crcRound r₂) : r₁ = r₂ := by
  have key : ∀ a b : Nat, a % 2 = 0 → b % 2 = 1 → a < 2 ^ 32 → b < 2 ^ 32 →
      a >>> 1 ≠ (b >>> 1) ^^^ CRC_POLY := by
    intro a b _ _ ha hb heq
    have hta : (a >>> 1).testBit 31 = false :=
      Nat.testBit_eq_false_of_lt (shiftRight_one_lt a ha)
    have htb : ((b >>> 1) ^^^ CRC_POLY).testBit 31 = true := by
      rw [Nat.testBit_xor]
      have h1 : (b >>> 1).testBit 31 = false :=
        Nat.testBit_eq_false_of_lt (shiftRight_one_lt b hb)
      have h2 : CRC_POLY.testBit 31 = true := by decide
      rw [h1, h2]
      rfl
    rw [heq, htb] at hta
    exact Bool.true_eq_false.mp hta
  have recompose : ∀ a b : Nat, a >>> 1 = b >>> 1 → a % 2 = b % 2 → a = b := by
    intro a b hs hp
    rw [Nat.shiftRight_one, Nat.shiftRight_one] at hs
    omega
  unfold crcRound at h
  rcases Nat.mod_two_eq_zero_or_one r₁ with p₁ | p₁ <;>
    rcases Nat.mod_two_eq_zero_or_one r₂ with p₂ | p₂
  · simp [p₁, p₂] at h
    exact recompose _ _ h (by rw [p₁, p₂])
  · simp [p₁, p₂] at h
    exact absurd h (key r₁ r₂ p₁ p₂ h₁ h₂)
  · simp [p₁, p₂] at h
    exact absurd h.symm (key r₂ r₁ p₂ p₁ h₂ h₁)
  · simp [p₁, p₂] at h
    have : r₁ >>> 1 = r₂ >>> 1 := by
      have := congrArg (fun z => z ^^^ CRC_POLY) h
      simpa [Nat.xor_cancel_right] using this
    exact recompose _ _ this (by rw [p₁, p₂])

lemma crcRound8_lt (r : Nat) (h : r < 2 ^ 32) : crcRound8 r < 2 ^ 32 := by
  unfold crcRound8
  exact crcRound_lt _ (crcRound_lt _ (crcRound_lt _ (crcRound_lt _ (crcRound_lt _
    (crcRound_lt _ (crcRound_lt _ (crcRound_lt _ h)))))))

lemma crcRound8_inj (r₁ r₂ : Nat) (h₁ : r₁ < 2 ^ 32) (h₂ : r₂ < 2 ^ 32)
    (h : crcRound8 r₁ = crcRound8 r₂) : r₁ = r₂ := by
  unfold crcRound8 at h
  have l1 := crcRound_lt _ h₁
  have l2 := crcRound_lt _ l1
  have l3 := crcRound_lt _ l2
  have l4 := crcRound_lt _ l3
  have l5 := crcRound_lt _ l4
  have l6 := crcRound_lt _ l5
  have l7 := crcRound_lt _ l6
  have m1 := crcRound_lt _ h₂
  have m2 := crcRound_lt _ m1
  have m3 := crcRound_lt _ m2
  have m4 := crcRound_lt _ m3
  have m5 := crcRound_lt _ m4
  have m6 := crcRound_lt _ m5
  have m7 := crcRound_lt _ m6
  exact crcRound_inj _ _ h₁ h₂ (crcRound_inj _ _ l1 m1 (crcRound_inj _ _ l2 m2
    (crcRound_inj _ _ l3 m3 (crcRound_inj _ _ l4 m4 (crcRound_inj _ _ l5 m5
      (crcRound_inj _ _ l6 m6 (crcRound_inj _ _ l7 m7 h)))))))

lemma crcUpdate_lt (s c : Nat) (hs : s < 2 ^ 32) (hc : c < 2 ^ 32) :
    crcUpdate s c < 2 ^ 32 :=
  crcRound8_lt _ (Nat.xor_lt_two_pow hs hc)

lemma crcUpdate_inj_state (s₁ s₂ c : Nat) (h₁ : s₁ < 2 ^ 32) (h₂ : s₂ < 2 ^ 32)
    (hc : c < 2 ^ 32) (hne : s₁ ≠ s₂) : crcUpdate s₁ c ≠ crcUpdate s₂ c := by
  intro h
  apply hne
  have := crcRound8_inj _ _ (Nat.xor_lt_two_pow h₁ hc) (Nat.xor_lt_two_pow h₂ hc) h
  have := congrArg (fun z => z ^^^ c) this
  simpa [Nat.xor_cancel_right] using this

lemma crcUpdate_inj_byte (s c₁ c₂ : Nat) (hs : s < 2 ^ 32) (h₁ : c₁ < 2 ^ 32)
    (h₂ : c₂ < 2 ^ 32) (hne : c₁ ≠ c₂) : crcUpdate s c₁ ≠ crcUpdate s c₂ := by
  intro h
  apply hne
  have := crcRound8_inj _ _ (Nat.xor_lt_two_pow hs h₁) (Nat.xor_lt_two_pow hs h₂) h
  have h₁x := congrArg (fun z => s ^^^ z) this
  simpa [← Nat.xor_assoc, Nat.xor_self, Nat.zero_xor] using h₁x

lemma crcFoldl_lt (l : List Nat) (s : Nat) (hs : s < 2 ^ 32)
    (hl : ∀ c ∈ l, c < 2 ^ 32) : l.foldl crcUpdate s < 2 ^ 32 := by
  induction l generalizing s with
  | nil => exact hs
  | cons c t ih =>
    exact ih _ (crcUpdate_lt s c hs (hl c (by simp))) (fun x hx => hl x (by simp [hx]))

lemma crcFoldl_inj (l : List Nat) (s₁ s₂ : Nat) (h₁ : s₁ < 2 ^ 32) (h₂ : s₂ < 2 ^ 32)
    (hl : ∀ c ∈ l, c < 2 ^ 32) (hne : s₁ ≠ s₂) :
    l.foldl crcUpdate s₁ ≠ l.foldl crcUpdate s₂ := by
  induction l generalizing s₁ s₂ with
  | nil => exact hne
  | cons c t ih =>
    have hc : c < 2 ^ 32 := hl c (by simp)
    exact ih _ _ (crcUpdate_lt _ _ h₁ hc) (crcUpdate_lt _ _ h₂ hc)
      (fun x hx => hl x (by simp [hx]))
      (crcUpdate_inj_state _ _ _ h₁ h₂ hc hne)

/-- Flipping one byte always changes the CRC32 digest. -/
lemma crc32_flip (l₁ l₂ : List Nat) (b b' : Nat)
    (hl₁ : ∀ c ∈ l₁, c < 2 ^ 32) (hl₂ : ∀ c ∈ l₂, c < 2 ^ 32)
    (hb : b < 2 ^ 32) (hb' : b' < 2 ^ 32) (hne : b ≠ b') :
    crc32 (l₁ ++ b :: l₂) ≠ crc32 (l₁ ++ b' :: l₂) := by
  intro h
  unfold crc32 at h
  rw [List.foldl_append, List.foldl_append] at h
  have hs : l₁.foldl crcUpdate 0xFFFFFFFF < 2 ^ 32 :=
    crcFoldl_lt l₁ _ (by decide) hl₁
  have hx := congrArg (fun z => z ^^^ 0xFFFFFFFF) h
  simp only [Nat.xor_cancel_right] at hx
  have hcons : ∀ c : Nat, (c :: l₂).foldl crcUpdate (l₁.foldl crcUpdate 0xFFFFFFFF) =
      l₂.foldl crcUpdate (crcUpdate (l₁.foldl crcUpdate 0xFFFFFFFF) c) := by
    intro c; rfl
  rw [hcons b, hcons b'] at hx
  exact crcFoldl_inj l₂ _ _ (crcUpdate_lt _ _ hs hb) (crcUpdate_lt _ _ hs hb') hl₂
    (crcUpdate_inj_byte _ _ _ hs hb hb' hne) hx

/-! ### Byte-stream primitives

Modelled from the spec §4.4: "all multi-byte integer fields are big-endian". -/

/-- Read `n` bytes big-endian from the front of a stream; `none` on a short read. -/
def readBE : Nat → List Nat → Option (Nat × List Nat)
  | 0, s => some (0, s)
  | _ + 1, [] => none
  | n + 1, c :: s =>
    match readBE n s with
    | none => none
    | some (v, r) => some (c * 256 ^ n + v, r)

/-- Serialize a value as `n` big-endian bytes (most significant first). -/
def beBytes : Nat → Nat → List Nat
  | 0, _ => []
  | n + 1, v => (v / 256 ^ n) % 256 :: beBytes n v

lemma readBE_beBytes_mod (n v : Nat) (r : List Nat) :
    readBE n (beBytes n v ++ r) = some (v % 256 ^ n, r) := by
  induction n generalizing v with
  | zero => simp [readBE, beBytes, Nat.mod_one]
  | succ n ih =>
    show readBE (n + 1) ((v / 256 ^ n) % 256 :: (beBytes n v ++ r)) = _
    have key : v % 256 ^ (n + 1) = v % 256 ^ n + 256 ^ n * (v / 256 ^ n % 256) := by
      rw [pow_succ]
      exact Nat.mod_mul
    simp only [readBE, ih v, key, Option.some.injEq, Prod.mk.injEq]
    refine ⟨by ring, trivial⟩

lemma readBE_beBytes (n v : Nat) (r : List Nat) (h : v < 256 ^ n) :
    readBE n (beBytes n v ++ r) = some (v, r) := by
  rw [readBE_beBytes_mod, Nat.mod_eq_of_lt h]

/-! ### Block-level checksum verification and block decoding -/

/-- The digest select: which digest a checksum kind computes. -/
def checksumVal : LzoChecksum → List Nat → Nat
  | .CHECK_NONE, _ => 0
  | .CHECK_CRC32, l => crc32 l
  | .CHECK_ADLER, l => adler32 l

/-- Modelled from the spec (§2 ChecksumVerifier, §4.4) and the header's
declaration `HdfsLzoTextScanner::Checksum` (lines 160-162, body in the
missing `hdfs-lzo-text-scanner.cc`): verify a block checksum of the given
kind against the expected stored value; verification is skipped entirely
when `disable_checksum_` is set (header lines 207-209).  Returns whether
the status is OK. -/
def Checksum (disable_checksum_ : Bool) (t : LzoChecksum) (expected : Nat)
    (buffer : List Nat) : Bool :=
  if disable_checksum_ then true
  else
    match t with
    | .CHECK_NONE => true
    | .CHECK_CRC32 => checksumVal .CHECK_CRC32 buffer == expected
    | .CHECK_ADLER => checksumVal .CHECK_ADLER buffer == expected

/-- Outcome of decoding one block. -/
inductive BlockResult
  | blockOk (data : List Nat) (rest : List Nat)
  | eof (rest : List Nat)
  | corrupt
deriving DecidableEq

/-- Modelled from the spec §4.4 (BlockDecoder state machine) and the
header's declaration `HdfsLzoTextScanner::ReadAndDecompressData`
(lines 171-177, body in the missing `hdfs-lzo-text-scanner.cc`): decode one
block from the front of the stream.  A 4-byte uncompressed length of 0 is
clean end of stream; implausible lengths, short reads, checksum mismatches
and decompression failures are corruption; when the stored compressed
length equals the uncompressed length the payload is taken literally with
no decompression pass.  `decompress ulen payload` is the external LZO
decompressor (out of scope per spec §1), `none` on failure. -/
def decodeBlock (disable : Bool) (kin kout : LzoChecksum)
    (decompress : Nat → List Nat → Option (List Nat)) (s : List Nat) : BlockResult :=
  match readBE 4 s with
  | none => .corrupt
  | some (ulen, s₁) =>
    if ulen = 0 then .eof s₁
    else if MAX_BLOCK_COMPRESSED_SIZE < ulen then .corrupt
    else
      match readBE 4 s₁ with
      | none => .corrupt
      | some (clen, s₂) =>
        if MAX_BLOCK_COMPRESSED_SIZE < clen then .corrupt
        else
          match (if kin = .CHECK_NONE then some (0, s₂) else readBE 4 s₂) with
          | none => .corrupt
          | some (ichk, s₃) =>
            match (if kout = .CHECK_NONE ∨ clen = ulen then some (0, s₃)
                   else readBE 4 s₃) with
            | none => .corrupt
            | some (ochk, s₄) =>
              if s₄.length < clen then .corrupt
              else
                let payload := s₄.take clen
                let rest := s₄.drop clen
                if clen = ulen then
                  if Checksum disable kin ichk payload then .blockOk payload rest
                  else .corrupt
                else
                  if Checksum disable kout ochk payload then
                    match decompress ulen payload with
                    | none => .corrupt
                    | some out =>
                      if out.length = ulen then
                        if Checksum disable kin ichk out then .blockOk out rest
                        else .corrupt
                      else .corrupt
                  else .corrupt

/-- Serialize one block exactly as `decodeBlock` reads it: 4-byte
uncompressed length, 4-byte compressed length (the payload's length), the
stored uncompressed-data checksum when the input kind is not `CHECK_NONE`,
the stored compressed-data checksum when the output kind is not
`CHECK_NONE` and the block is actually compressed (LZOP omits it for
stored blocks), then the payload bytes.  The checksum VALUES are free
arguments so that tampering with the payload while keeping the original
stored checksums can be expressed. -/
def mkBlockRaw (kin kout : LzoChecksum) (ulen ichk ochk : Nat)
    (payload : List Nat) : List Nat :=
  beBytes 4 ulen ++
    (beBytes 4 payload.length ++
      ((if kin = .CHECK_NONE then [] else beBytes 4 ichk) ++
        ((if kout = .CHECK_NONE ∨ payload.length = ulen then []
          else beBytes 4 ochk) ++ payload)))

/-- Characterization of `decodeBlock` on a serialized block followed by the
rest of the file: parsing succeeds and the result is decided by the
checksum comparisons and the decompressor alone. -/
lemma decode_mkBlockRaw (disable : Bool) (kin kout : LzoChecksum)
    (dec : Nat → List Nat → Option (List Nat)) (ulen ichk ochk : Nat)
    (payload tail : List Nat) (h1 : 0 < ulen) (h2 : ulen ≤ MAX_BLOCK_COMPRESSED_SIZE)
    (h3 : payload.length ≤ MAX_BLOCK_COMPRESSED_SIZE)
    (hic : ichk < 2 ^ 32) (hoc : ochk < 2 ^ 32) :
    decodeBlock disable kin kout dec (mkBlockRaw kin kout ulen ichk ochk payload ++ tail) =
      (if payload.length = ulen then
        (if Checksum disable kin ichk payload then .blockOk payload tail else .corrupt)
      else
        if Checksum disable kout ochk payload then
          match dec ulen payload with
          | none => .corrupt
          | some out =>
            if out.length = ulen then
              (if Checksum disable kin ichk out then .blockOk out tail else .corrupt)
            else .corrupt
        else .corrupt) := by
  have hM : MAX_BLOCK_COMPRESSED_SIZE = 262144 := rfl
  have hp4 : (256 : Nat) ^ 4 = 2 ^ 32 := by norm_num
  have hu32 : ulen < 256 ^ 4 := by rw [hp4]; omega
  have hc32 : payload.length < 256 ^ 4 := by rw [hp4]; omega
  have hi32 : ichk < 256 ^ 4 := by rw [hp4]; exact hic
  have ho32 : ochk < 256 ^ 4 := by rw [hp4]; exact hoc
  have hne0 : ¬ ulen = 0 := by omega
  have hnmax : ¬ MAX_BLOCK_COMPRESSED_SIZE < ulen := by omega
  have hnmax2 : ¬ MAX_BLOCK_COMPRESSED_SIZE < payload.length := by omega
  have hlen : ¬ (payload ++ tail).length < payload.length := by simp
  have htake : (payload ++ tail).take payload.length = payload := List.take_left payload tail
  have hdrop : (payload ++ tail).drop payload.length = tail := List.drop_left payload tail
  by_cases hst : payload.length = ulen
  · have htake' : (payload ++ tail).take ulen = payload := by rw [← hst]; exact htake
    have hdrop' : (payload ++ tail).drop ulen = tail := by rw [← hst]; exact hdrop
    by_cases hkin : kin = LzoChecksum.CHECK_NONE
    · simp only [decodeBlock, mkBlockRaw, List.append_assoc, hkin, if_pos rfl,
        readBE_beBytes _ _ _ hu32, readBE_beBytes _ _ _ hc32, hne0, hnmax, hnmax2,
        or_true, hst, if_true, ite_false, ite_true, List.nil_append, hlen,
        htake', hdrop', Checksum, ite_self]
      simp [hst]
    · simp only [decodeBlock, mkBlockRaw, List.append_assoc, hkin, hst, or_true,
        if_true, ite_false, ite_true, List.nil_append,
        readBE_beBytes _ _ _ hu32, readBE_beBytes _ _ _ hc32, readBE_beBytes _ _ _ hi32]
      simp [hne0, hnmax, hnmax2, hlen, htake', hdrop', hst, hkin]
  · by_cases hkout : kout = LzoChecksum.CHECK_NONE
    · simp only [decodeBlock, mkBlockRaw, List.append_assoc, hkout, hst]
      by_cases hkin : kin = LzoChecksum.CHECK_NONE <;>
        simp [hkin, readBE_beBytes _ _ _ hu32, readBE_beBytes _ _ _ hc32,
          readBE_beBytes _ _ _ hi32, hne0, hnmax, hnmax2, hlen, htake, hdrop,
          hst, Checksum, ite_self]
    · have hko : ¬ (kout = LzoChecksum.CHECK_NONE ∨ payload.length = ulen) := by
        intro h
        rcases h with h | h
        · exact hkout h
        · exact hst h
      simp only [decodeBlock, mkBlockRaw, List.append_assoc, hst]
      by_cases hkin : kin = LzoChecksum.CHECK_NONE <;>
        simp [hkin, hko, hkout, readBE_beBytes _ _ _ hu32, readBE_beBytes _ _ _ hc32,
          readBE_beBytes _ _ _ hi32, readBE_beBytes _ _ _ ho32, hne0, hnmax,
          hnmax2, hlen, htake, hdrop, hst, Checksum, ite_self]

/-! ### Scanner object and stream driver -/

/-- Translated from `src/hdfs-lzo-text-scanner.h` lines 91-210: the scanner
fields relevant to the claims.  Raw-pointer buffer fields
(`block_buffer_`, `block_buffer_ptr_`) have no shallow value embedding;
buffer ownership is modelled separately below. -/
structure HdfsLzoTextScanner where
  disable_checksum_ : Bool
  eos_read_ : Bool
  bytes_remaining_ : Nat

/-- Modelled from the spec: the constructor body is in the missing
`hdfs-lzo-text-scanner.cc`; the header (lines 207-209) documents
`disable_checksum_` as "This is set when the scanner object is
constructed.  Currently always true.  HDFS checksums the blocks from the
disk to the client, so this is redundent." -/
def GetLzoTextScanner : HdfsLzoTextScanner :=
  { disable_checksum_ := true, eos_read_ := false, bytes_remaining_ := 0 }

/-- Modelled from the spec §4.4: repeatedly decode blocks until the
EndOfFile state; a corrupt block with no recovery is an error (`none`).
Fuel bounds the recursion. -/
def decodeStream (disable : Bool) (kin kout : LzoChecksum)
    (decompress : Nat → List Nat → Option (List Nat)) :
    Nat → List Nat → Option (List (List Nat))
  | 0, _ => none
  | fuel + 1, s =>
    match decodeBlock disable kin kout decompress s with
    | .eof _ => some []
    | .corrupt => none
    | .blockOk d rest =>
      match decodeStream disable kin kout decompress fuel rest with
      | none => none
      | some ds => some (d :: ds)

/-! ### RangeSplitter -/

/-- A scan-range request: byte interval `[startOffset, stopOffset)` plus
the splittable marking. -/
structure ScanRangeReq where
  startOffset : Int
  stopOffset : Int
  splittable : Bool
deriving DecidableEq

/-- One range per consecutive pair of offsets, plus a final range from the
last offset to the end value. -/
def zipRanges : List Int → Int → List (Int × Int)
  | [], _ => []
  | [a], e => [(a, e)]
  | a :: b :: t, e => (a, b) :: zipRanges (b :: t) e

/-- Modelled from the spec §4.5 and the header's declaration
`HdfsLzoTextScanner::IssueFileRanges` (lines 168-169, body in the missing
`hdfs-lzo-text-scanner.cc`): with an index, emit one scan-range request per
consecutive pair of index offsets and one final request from the last
offset to end of file; with no index (empty offsets, header lines 67-68)
emit a single request for the whole data interval, marked non-splittable. -/
def IssueFileRanges (headerEnd fileLen : Int) (offsets : List Int) : List ScanRangeReq :=
  match offsets with
  | [] => [⟨headerEnd, fileLen, false⟩]
  | _ :: _ => (zipRanges offsets fileLen).map (fun p => ⟨p.1, p.2, true⟩)

/-- Modelled from the spec §4.5: BlockLocator is invoked mid-file only for
splittable ranges; a non-splittable range starts decoding right after the
header instead. -/
def needsBlockLocator (r : ScanRangeReq) : Bool := r.splittable

/-! ### BlockLocator -/

/-- Modelled from the spec §4.3 and the header's declaration
`HdfsLzoTextScanner::FindFirstBlock` (lines 164-166, body in the missing
`hdfs-lzo-text-scanner.cc`): return the first indexed block start at or
after the target offset; `none` means not found. -/
def FindFirstBlock (offsets : List Int) (target : Int) : Option Int :=
  offsets.find? (fun o => decide (target ≤ o))

/-- Modelled from the spec §4.3 and the header's `Open` documentation
(lines 96-101): when no block at or after the range start exists the range
reports end of stream and the scanner hands zero rows to the caller. -/
def scanRangeRows (offsets : List Int) (target : Int)
    (decoded : List (List Nat)) : List (List Nat) :=
  if (FindFirstBlock offsets target).isNone then [] else decoded

/-! ### IndexLoader -/

/-- Result of loading the companion index file. -/
inductive IndexResult
  | noIndex
  | indexOffsets (offsets : List Int)
  | formatError
deriving DecidableEq

/-- Two's-complement reading of an 8-byte big-endian value as `int64_t`. -/
def toInt64 (v : Nat) : Int := if v < 2 ^ 63 then (v : Int) else (v : Int) - 2 ^ 64

/-- Parse the index file body as a sequence of 8-byte big-endian offsets;
`none` when the byte count is not a multiple of 8. -/
def parseIndexOffsets : List Nat → Option (List Int)
  | [] => some []
  | b0 :: b1 :: b2 :: b3 :: b4 :: b5 :: b6 :: b7 :: rest =>
    match parseIndexOffsets rest with
    | none => none
    | some os =>
      some (toInt64 (((((((b0 * 256 + b1) * 256 + b2) * 256 + b3) * 256 + b4) * 256
        + b5) * 256 + b6) * 256 + b7) :: os)
  | _ => none

/-- Strictly ascending check on a list of offsets. -/
def ascendingStrict : List Int → Bool
  | [] => true
  | [_] => true
  | a :: b :: t => decide (a < b) && ascendingStrict (b :: t)

/-- Modelled from the spec §4.2 and the header's declaration
`HdfsLzoTextScanner::ReadIndexFile` (lines 157-158, body in the missing
`hdfs-lzo-text-scanner.cc`): an absent file is the normal "no index"
result; a present file is parsed as 8-byte big-endian offsets which must
be strictly ascending and at least the header length, any violation being
a `FormatError`. -/
def ReadIndexFile (contents : Option (List Nat)) (headerLen : Int) : IndexResult :=
  match contents with
  | none => .noIndex
  | some bytes =>
    match parseIndexOffsets bytes with
    | none => .formatError
    | some offs =>
      if ascendingStrict offs && offs.all (fun o => decide (headerLen ≤ o))
      then .indexOffsets offs
      else .formatError

/-- The offsets recorded into the shared header: empty when there is no
index (spec §3: absent/empty signals "file not splittable"). -/
def headerOffsets : IndexResult → List Int
  | .indexOffsets os => os
  | _ => []

/-! ### ReadData: per-range decode loop with corruption recovery -/

/-- Outcome of decoding one assigned scan range. -/
inductive RangeResult
  | ok (blocksData : List (List Nat))
  | dataCorruptionError
deriving DecidableEq

/-- Modelled from the spec §4.4 (Corrupt state) and the header's
declaration `HdfsLzoTextScanner::ReadData` (lines 179-182 "Read compress
data and recover from errosr", body in the missing
`hdfs-lzo-text-scanner.cc`): decode blocks of `file` from `pos` until the
range bound `endPos`; on a corrupt block, relocate via `FindFirstBlock`
just past the suspect position when an index exists (skipping the bad
block, surfacing no error), and fail the range with `DataCorruptionError`
when no index exists. -/
def ReadData (disable : Bool) (kin kout : LzoChecksum)
    (decompress : Nat → List Nat → Option (List Nat)) (file : List Nat)
    (offsets : List Int) (endPos : Nat) :
    Nat → Nat → List (List Nat) → RangeResult
  | 0, _, acc => .ok acc
  | fuel + 1, pos, acc =>
    if endPos ≤ pos then .ok acc
    else
      match decodeBlock disable kin kout decompress (file.drop pos) with
      | .eof _ => .ok acc
      | .blockOk d rest =>
        ReadData disable kin kout decompress file offsets endPos fuel
          (file.length - rest.length) (acc ++ [d])
      | .corrupt =>
        if offsets.isEmpty then .dataCorruptionError
        else
          match FindFirstBlock offsets (Int.ofNat (pos + 1)) with
          | some o => ReadData disable kin kout decompress file offsets endPos fuel o.toNat acc
          | none => .ok acc

/-- Each assigned range is processed independently by its own worker
(spec §5): the per-file result list is the independent map of `ReadData`
over the ranges. -/
def processRanges (disable : Bool) (kin kout : LzoChecksum)
    (decompress : Nat → List Nat → Option (List Nat)) (file : List Nat)
    (offsets : List Int) (fuel : Nat) (ranges : List (Nat × Nat)) : List RangeResult :=
  ranges.map (fun r => ReadData disable kin kout decompress file offsets r.2 fuel r.1 [])

/-! ### Buffer ownership -/

/-- A decompressed block buffer: identity plus contents. -/
structure LzoBuffer where
  id : Nat
  bytes : List Nat
deriving DecidableEq

/-- Ownership state of the buffers the scanner has produced: the scanner's
own `block_buffer_pool_`, the buffers attached to downstream consumer
scopes (row batches), and the buffers that have been freed. -/
structure ScannerMem where
  pool : List LzoBuffer
  attached : List LzoBuffer
  freed : List LzoBuffer

/-- An observable scanner step for buffer ownership. -/
inductive ScanOp
  | decodeOp (newBuf : LzoBuffer)
  | closeOp (hasRowBatch : Bool)
deriving DecidableEq

/-- Modelled from the spec §5 and the header's documentation of
`ReadAndDecompressData` (lines 171-177): each decode allocates a fresh
block buffer and attaches the buffers from previous calls, which returned
batches may still reference, to the consumer's pool. -/
def ReadAndDecompressDataMem (st : ScannerMem) (newBuf : LzoBuffer) : ScannerMem :=
  { pool := [newBuf], attached := st.attached ++ st.pool, freed := st.freed }

/-- Modelled from the header's documentation of `Close` (lines 109-111):
"Attaches 'block_buffer_pool_' to 'row_batch'.  If 'row_batch' is nullptr,
then 'block_buffer_pool_' is freed instead." -/
def CloseMem (st : ScannerMem) (hasRowBatch : Bool) : ScannerMem :=
  if hasRowBatch then { pool := [], attached := st.attached ++ st.pool, freed := st.freed }
  else { pool := [], attached := st.attached, freed := st.freed ++ st.pool }

/-- One ownership step. -/
def stepMem (st : ScannerMem) : ScanOp → ScannerMem
  | .decodeOp nb => ReadAndDecompressDataMem st nb
  | .closeOp b => CloseMem st b

/-- Run a sequence of ownership steps. -/
def runMem (st : ScannerMem) (ops : List ScanOp) : ScannerMem := ops.foldl stepMem st

/-! ### Helper lemmas -/

lemma adler_pair_lt (l : List Nat) (a b : Nat) (ha : a < MOD_ADLER) (hb : b < MOD_ADLER) :
    (l.foldl adlerStep (a, b)).1 < MOD_ADLER ∧ (l.foldl adlerStep (a, b)).2 < MOD_ADLER := by
  induction l generalizing a b with
  | nil => exact ⟨ha, hb⟩
  | cons c t ih =>
    exact ih ((a + c) % MOD_ADLER) ((b + (a + c) % MOD_ADLER) % MOD_ADLER)
      (Nat.mod_lt _ (by decide)) (Nat.mod_lt _ (by decide))

lemma adler32_lt (l : List Nat) : adler32 l < 2 ^ 32 := by
  have h := adler_pair_lt l 1 0 (by decide) (by decide)
  have hM : MOD_ADLER = 65521 := rfl
  rw [hM] at h
  unfold adler32
  omega

lemma crc32_lt (l : List Nat) (hl : ∀ c ∈ l, c < 256) : crc32 l < 2 ^ 32 := by
  unfold crc32
  exact Nat.xor_lt_two_pow
    (crcFoldl_lt l _ (by decide) (fun c hc => lt_trans (hl c hc) (by norm_num))) (by decide)

lemma checksumVal_lt (t : LzoChecksum) (l : List Nat) (hl : ∀ c ∈ l, c < 256) :
    checksumVal t l < 2 ^ 32 := by
  cases t with
  | CHECK_NONE => exact Nat.pos_pow_of_pos 32 (by decide)
  | CHECK_CRC32 => exact crc32_lt l hl
  | CHECK_ADLER => exact adler32_lt l

/-- Flipping one byte changes the digest for any non-`CHECK_NONE` kind. -/
lemma checksumVal_flip (t : LzoChecksum) (l₁ l₂ : List Nat) (b b' : Nat)
    (hl₁ : ∀ c ∈ l₁, c < 256) (hl₂ : ∀ c ∈ l₂, c < 256)
    (hb : b < 256) (hb' : b' < 256) (hne : b ≠ b') (ht : t ≠ .CHECK_NONE) :
    checksumVal t (l₁ ++ b :: l₂) ≠ checksumVal t (l₁ ++ b' :: l₂) := by
  cases t with
  | CHECK_NONE => exact absurd rfl ht
  | CHECK_CRC32 =>
    exact crc32_flip l₁ l₂ b b' (fun c hc => lt_trans (hl₁ c hc) (by norm_num))
      (fun c hc => lt_trans (hl₂ c hc) (by norm_num))
      (lt_trans hb (by norm_num)) (lt_trans hb' (by norm_num)) hne
  | CHECK_ADLER =>
    exact adler32_flip l₁ l₂ b b' (lt_trans hb (by decide)) (lt_trans hb' (by decide)) hne

lemma chain'_head_lt_of_mem {a x : Int} {t : List Int}
    (h : List.Chain' (· < ·) (a :: t)) (hx : x ∈ t) : a < x := by
  induction t generalizing a with
  | nil => cases hx
  | cons b t2 ih =>
    rw [List.chain'_cons] at h
    rcases List.mem_cons.mp hx with rfl | hx2
    · exact h.1
    · exact lt_trans h.1 (ih h.2 hx2)

lemma chain'_head_le_getLast {a : Int} {t : List Int}
    (h : List.Chain' (· < ·) (a :: t)) :
    a ≤ (a :: t).getLast (List.cons_ne_nil a t) := by
  cases t with
  | nil => exact le_refl a
  | cons b t2 =>
    have : (a :: b :: t2).getLast (List.cons_ne_nil _ _) ∈ b :: t2 := by
      rw [List.getLast_cons (List.cons_ne_nil b t2)]
      exact List.getLast_mem _
    exact le_of_lt (chain'_head_lt_of_mem h this)

lemma zipRanges_map_fst (l : List Int) (e : Int) :
    (zipRanges l e).map Prod.fst = l := by
  induction l with
  | nil => rfl
  | cons a t ih =>
    cases t with
    | nil => rfl
    | cons b t2 => simpa [zipRanges] using ih

lemma zipRanges_start_ge {a e : Int} {t : List Int}
    (h : List.Chain' (· < ·) (a :: t)) :
    ∀ p ∈ zipRanges (a :: t) e, a ≤ p.1 := by
  induction t generalizing a with
  | nil =>
    intro p hp
    simp only [zipRanges, List.mem_singleton] at hp
    rw [hp]
  | cons b t2 ih =>
    intro p hp
    rw [List.chain'_cons] at h
    simp only [zipRanges, List.mem_cons] at hp
    rcases hp with rfl | hp2
    · exact le_refl a
    · exact le_of_lt (lt_of_lt_of_le h.1 (ih h.2 p hp2))

lemma zipRanges_union {a e : Int} {t : List Int}
    (h : List.Chain' (· < ·) (a :: t))
    (hlast : (a :: t).getLast (List.cons_ne_nil a t) < e) :
    ∀ p : Int, (∃ r ∈ zipRanges (a :: t) e, r.1 ≤ p ∧ p < r.2) ↔ (a ≤ p ∧ p < e) := by
  induction t generalizing a with
  | nil =>
    intro p
    simp [zipRanges]
  | cons b t2 ih =>
    intro p
    rw [List.chain'_cons] at h
    have hlast2 : (b :: t2).getLast (List.cons_ne_nil b t2) < e := by
      rw [List.getLast_cons (List.cons_ne_nil b t2)] at hlast
      exact hlast
    have hble : b ≤ (b :: t2).getLast (List.cons_ne_nil b t2) :=
      chain'_head_le_getLast h.2
    constructor
    · intro ⟨r, hr, hr1, hr2⟩
      simp only [zipRanges, List.mem_cons] at hr
      rcases hr with rfl | hr2'
      · exact ⟨hr1, by omega⟩
      · have := (ih h.2 hlast2 p).mp ⟨r, hr2', hr1, hr2⟩
        exact ⟨by omega, this.2⟩
    · intro ⟨hap, hpe⟩
      by_cases hpb : p < b
      · exact ⟨(a, b), by simp [zipRanges], hap, hpb⟩
      · obtain ⟨r, hr, hr1, hr2⟩ := (ih h.2 hlast2 p).mpr ⟨by omega, hpe⟩
        exact ⟨r, by simp [zipRanges, hr], hr1, hr2⟩

lemma zipRanges_pairwise {a e : Int} {t : List Int}
    (h : List.Chain' (· < ·) (a :: t)) :
    (zipRanges (a :: t) e).Pairwise (fun r₁ r₂ => r₁.2 ≤ r₂.1) := by
  induction t generalizing a with
  | nil => simp [zipRanges]
  | cons b t2 ih =>
    rw [List.chain'_cons] at h
    simp only [zipRanges]
    rw [List.pairwise_cons]
    exact ⟨fun r hr => zipRanges_start_ge h.2 r hr, ih h.2⟩

lemma find_first_block_min (offsets : List Int) (target o : Int)
    (hchain : List.Chain' (· < ·) offsets)
    (h : FindFirstBlock offsets target = some o) :
    target ≤ o ∧ o ∈ offsets ∧ ∀ o₂ ∈ offsets, target ≤ o₂ → o ≤ o₂ := by
  induction offsets with
  | nil => cases h
  | cons a t ih =>
    by_cases hpa : target ≤ a
    · have : FindFirstBlock (a :: t) target = some a := by
        simp [FindFirstBlock, List.find?_cons_of_pos, hpa]
      rw [this] at h
      obtain rfl : a = o := Option.some.inj h
      refine ⟨hpa, List.mem_cons_self a t, ?_⟩
      intro o₂ ho₂ _
      rcases List.mem_cons.mp ho₂ with rfl | ho₂'
      · exact le_refl _
      · exact le_of_lt (chain'_head_lt_of_mem hchain ho₂')
    · have hstep : FindFirstBlock (a :: t) target = FindFirstBlock t target := by
        simp [FindFirstBlock, List.find?_cons_of_neg, hpa]
      rw [hstep] at h
      have ht : List.Chain' (· < ·) t := hchain.tail
      obtain ⟨h1, h2, h3⟩ := ih ht h
      refine ⟨h1, List.mem_cons_of_mem a h2, ?_⟩
      intro o₂ ho₂ hto₂
      rcases List.mem_cons.mp ho₂ with rfl | ho₂'
      · exact absurd hto₂ hpa
      · exact h3 o₂ ho₂' hto₂

lemma runMem_inv (st : ScannerMem) (buf : LzoBuffer) (ops : List ScanOp)
    (h1 : buf ∈ st.attached) (h2 : buf ∉ st.pool) (h3 : buf ∉ st.freed)
    (hfresh : ∀ nb, ScanOp.decodeOp nb ∈ ops → nb ≠ buf) :
    buf ∈ (runMem st ops).attached ∧ buf ∉ (runMem st ops).pool ∧
      buf ∉ (runMem st ops).freed := by
  induction ops generalizing st with
  | nil => exact ⟨h1, h2, h3⟩
  | cons op ops ih =>
    have hrun : runMem st (op :: ops) = runMem (stepMem st op) ops := rfl
    rw [hrun]
    have hfresh2 : ∀ nb, ScanOp.decodeOp nb ∈ ops → nb ≠ buf := by
      intro nb hnb
      exact hfresh nb (List.mem_cons_of_mem op hnb)
    cases op with
    | decodeOp nb =>
      apply ih
      · exact List.mem_append_left _ h1
      · intro hmem
        rw [show (stepMem st (ScanOp.decodeOp nb)).pool = [nb] from rfl] at hmem
        exact hfresh nb (List.mem_cons_self _ _) (List.mem_singleton.mp hmem).symm
      · exact h3
      · exact hfresh2
    | closeOp hasBatch =>
      cases hasBatch with
      | true =>
        apply ih
        · exact List.mem_append_left _ h1
        · simp [stepMem, CloseMem]
        · exact h3
        · exact hfresh2
      | false =>
        apply ih
        · exact h1
        · simp [stepMem, CloseMem]
        · intro hmem
          simp only [stepMem, CloseMem, if_neg (by simp : ¬ false = true)] at hmem
          rcases List.mem_append.mp hmem with hmem2 | hmem2
          · exact h3 hmem2
          · exact h2 hmem2
        · exact hfresh2

/-! ### Claim theorems -/

/-- Claim C1, counterexample: checksum kinds are declared (CRC32, not
None), the block's payload has one byte flipped (99 became 100) while the
stream still carries the checksum stored for the original payload, yet
with the scanner as constructed (`disable_checksum_` = true) the decode is
silently accepted as a successful decode instead of being detected. -/
theorem C1_counterexample :
    LzoChecksum.CHECK_CRC32 ≠ LzoChecksum.CHECK_NONE ∧
    crc32 [97, 98, 100] ≠ crc32 [97, 98, 99] ∧
    decodeBlock GetLzoTextScanner.disable_checksum_ .CHECK_CRC32 .CHECK_CRC32
      (fun _ _ => none)
      (mkBlockRaw .CHECK_CRC32 .CHECK_CRC32 3 (crc32 [97, 98, 99]) 0 [97, 98, 100]) =
      .blockOk [97, 98, 100] [] := by
  refine ⟨by decide, by decide, ?_⟩
  decide

/-- Claim C1, amended: when checksum verification is enabled
(`disable_checksum_` = false) and a checksum of a non-None kind actually
covers the payload (the input checksum for a stored block, whose payload
is the uncompressed data itself; the output checksum for a compressed
block), flipping any single byte of the block's compressed payload is
detected: the decode reports the block corrupt (failing the range or
triggering recovery) and never accepts it. -/
theorem C1_amended_flip_detected (kin kout : LzoChecksum) (ulen : Nat)
    (l₁ l₂ u tail : List Nat) (b b' : Nat)
    (dec : Nat → List Nat → Option (List Nat))
    (hb : b < 256) (hb' : b' < 256) (hne : b ≠ b')
    (hl₁ : ∀ c ∈ l₁, c < 256) (hl₂ : ∀ c ∈ l₂, c < 256) (hu : ∀ c ∈ u, c < 256)
    (hulen : 0 < ulen) (humax : ulen ≤ MAX_BLOCK_COMPRESSED_SIZE)
    (hcmax : (l₁ ++ b :: l₂).length ≤ MAX_BLOCK_COMPRESSED_SIZE)
    (hcover : ((l₁ ++ b :: l₂).length = ulen ∧ kin ≠ .CHECK_NONE ∧ u = l₁ ++ b :: l₂)
            ∨ ((l₁ ++ b :: l₂).length ≠ ulen ∧ kout ≠ .CHECK_NONE)) :
    decodeBlock false kin kout dec
      (mkBlockRaw kin kout ulen (checksumVal kin u) (checksumVal kout (l₁ ++ b :: l₂))
        (l₁ ++ b' :: l₂) ++ tail) = .corrupt := by
  have hlen : (l₁ ++ b' :: l₂).length = (l₁ ++ b :: l₂).length := by simp
  have hbytes : ∀ c ∈ l₁ ++ b :: l₂, c < 256 := by
    intro c hc
    rcases List.mem_append.mp hc with hc1 | hc2
    · exact hl₁ c hc1
    · rcases List.mem_cons.mp hc2 with rfl | hc3
      · exact hb
      · exact hl₂ c hc3
  rw [decode_mkBlockRaw false kin kout dec ulen _ _ _ tail hulen humax
    (by rw [hlen]; exact hcmax)
    (checksumVal_lt kin u hu) (checksumVal_lt kout _ hbytes)]
  have hflip : checksumVal kin (l₁ ++ b' :: l₂) ≠ checksumVal kin u →
      kin ≠ .CHECK_NONE → Checksum false kin (checksumVal kin u) (l₁ ++ b' :: l₂) = false := by
    intro hne2 hkin
    cases kin with
    | CHECK_NONE => exact absurd rfl hkin
    | CHECK_CRC32 =>
      simp only [Checksum, checksumVal] at hne2 ⊢
      simp [beq_eq_false_iff_ne, hne2]
    | CHECK_ADLER =>
      simp only [Checksum, checksumVal] at hne2 ⊢
      simp [beq_eq_false_iff_ne, hne2]
  rcases hcover with ⟨hstored, hkin, hueq⟩ | ⟨hcompressed, hkout⟩
  · rw [if_pos (by rw [hlen]; exact hstored)]
    rw [hflip _ hkin]
    · rfl
    · rw [hueq]
      exact checksumVal_flip kin l₁ l₂ b' b hl₁ hl₂ hb' hb (Ne.symm hne) hkin
  · rw [if_neg (by rw [hlen]; exact hcompressed)]
    have hofl : Checksum false kout (checksumVal kout (l₁ ++ b :: l₂)) (l₁ ++ b' :: l₂) = false := by
      cases kout with
      | CHECK_NONE => exact absurd rfl hkout
      | CHECK_CRC32 =>
        simp only [Checksum, checksumVal]
        simp [beq_eq_false_iff_ne]
        exact checksumVal_flip .CHECK_CRC32 l₁ l₂ b' b hl₁ hl₂ hb' hb (Ne.symm hne)
          (by intro hx; cases hx)
      | CHECK_ADLER =>
        simp only [Checksum, checksumVal]
        simp [beq_eq_false_iff_ne]
        exact checksumVal_flip .CHECK_ADLER l₁ l₂ b' b hl₁ hl₂ hb' hb (Ne.symm hne)
          (by intro hx; cases hx)
    rw [hofl]
    rfl

/-- Claim C1, witness for the amended theorem: a concrete stored block
with Adler32 input checksums; flipping the middle payload byte 2 to 9 is
detected as corruption when verification is enabled. -/
theorem C1_amended_witness :
    (2 : Nat) < 256 ∧ (9 : Nat) < 256 ∧ (2 : Nat) ≠ 9 ∧
    decodeBlock false .CHECK_ADLER .CHECK_NONE (fun _ _ => none)
      (mkBlockRaw .CHECK_ADLER .CHECK_NONE 3 (checksumVal .CHECK_ADLER [1, 2, 3])
        (checksumVal .CHECK_NONE [1, 2, 3]) [1, 9, 3] ++ []) = .corrupt := by
  refine ⟨by decide, by decide, by decide, ?_⟩
  have h := C1_amended_flip_detected .CHECK_ADLER .CHECK_NONE 3 [1] [3] [1, 2, 3] []
    2 9 (fun _ _ => none) (by decide) (by decide) (by decide)
    (by decide) (by decide) (by decide) (by decide) (by decide) (by decide)
    (Or.inl ⟨by decide, by decide, by decide⟩)
  exact h

/-- Claim C2: for a valid indexed LZOP file (offsets strictly ascending,
first offset at the header end, last offset before end of file) the ranges
emitted by IssueFileRanges partition the byte interval
`[header-end, file-end)`: their start offsets are exactly the index
offsets (so every internal boundary is an index offset, one range per
consecutive pair plus a final range to end of file), every point of the
interval is covered, and the ranges are mutually disjoint. -/
theorem C2_ranges_partition (headerEnd fileLen : Int) (rest : List Int)
    (hchain : List.Chain' (· < ·) (headerEnd :: rest))
    (hlast : (headerEnd :: rest).getLast (List.cons_ne_nil headerEnd rest) < fileLen) :
    (IssueFileRanges headerEnd fileLen (headerEnd :: rest)).map ScanRangeReq.startOffset =
      headerEnd :: rest ∧
    (∀ p : Int, (∃ r ∈ IssueFileRanges headerEnd fileLen (headerEnd :: rest),
        r.startOffset ≤ p ∧ p < r.stopOffset) ↔ (headerEnd ≤ p ∧ p < fileLen)) ∧
    (IssueFileRanges headerEnd fileLen (headerEnd :: rest)).Pairwise
      (fun r₁ r₂ => r₁.stopOffset ≤ r₂.startOffset) := by
  have hiss : IssueFileRanges headerEnd fileLen (headerEnd :: rest) =
      (zipRanges (headerEnd :: rest) fileLen).map (fun p => ⟨p.1, p.2, true⟩) := rfl
  refine ⟨?_, ?_, ?_⟩
  · rw [hiss, List.map_map]
    have : (ScanRangeReq.startOffset ∘ fun p : Int × Int => ScanRangeReq.mk p.1 p.2 true) =
        Prod.fst := rfl
    rw [this, zipRanges_map_fst]
  · intro p
    rw [hiss]
    constructor
    · intro ⟨r, hr, hr1, hr2⟩
      obtain ⟨q, hq, rfl⟩ := List.mem_map.mp hr
      exact (zipRanges_union hchain hlast p).mp ⟨q, hq, hr1, hr2⟩
    · intro hp
      obtain ⟨q, hq, hq1, hq2⟩ := (zipRanges_union hchain hlast p).mpr hp
      exact ⟨⟨q.1, q.2, true⟩, List.mem_map.mpr ⟨q, hq, rfl⟩, hq1, hq2⟩
  · rw [hiss]
    rw [List.pairwise_map]
    exact zipRanges_pairwise hchain

/-- Claim C2, witness: Scenario B of the spec — index offsets
[32, 4096, 9000], header length 32, file length 10000. -/
theorem C2_witness :
    List.Chain' (· < ·) [(32 : Int), 4096, 9000] ∧
    ([(32 : Int), 4096, 9000].getLast (List.cons_ne_nil 32 [4096, 9000]) < 10000) ∧
    ((IssueFileRanges 32 10000 [32, 4096, 9000]).map ScanRangeReq.startOffset =
        [32, 4096, 9000] ∧
      (∀ p : Int, (∃ r ∈ IssueFileRanges 32 10000 [32, 4096, 9000],
          r.startOffset ≤ p ∧ p < r.stopOffset) ↔ ((32 : Int) ≤ p ∧ p < 10000)) ∧
      (IssueFileRanges 32 10000 [32, 4096, 9000]).Pairwise
        (fun r₁ r₂ => r₁.stopOffset ≤ r₂.startOffset)) :=
  ⟨by norm_num [List.chain'_cons], by decide,
    C2_ranges_partition 32 10000 [4096, 9000] (by norm_num [List.chain'_cons]) (by decide)⟩

/-- Claim C3: with no index, exactly one data scan range is emitted,
covering `[header-end, file-end)`, marked non-splittable, and the block
locator is not invoked mid-file for it. -/
theorem C3_no_index_single_range (headerEnd fileLen : Int) :
    IssueFileRanges headerEnd fileLen [] =
      [{ startOffset := headerEnd, stopOffset := fileLen, splittable := false }] ∧
    (∀ r ∈ IssueFileRanges headerEnd fileLen [], needsBlockLocator r = false) := by
  refine ⟨rfl, ?_⟩
  intro r hr
  rw [List.mem_singleton.mp hr]
  rfl

/-- Claim C4: a block whose 4-byte uncompressed-length field reads 0 makes
the decoder report clean end of stream: the single-block decode yields the
EndOfFile result (consuming only the length field), and the stream driver
ends successfully with no further blocks read and no error. -/
theorem C4_zero_length_is_clean_eof (disable : Bool) (kin kout : LzoChecksum)
    (dec : Nat → List Nat → Option (List Nat)) (rest : List Nat) (fuel : Nat) :
    decodeBlock disable kin kout dec (0 :: 0 :: 0 :: 0 :: rest) = .eof rest ∧
    decodeStream disable kin kout dec (fuel + 1) (0 :: 0 :: 0 :: 0 :: rest) = some [] := by
  have h1 : decodeBlock disable kin kout dec (0 :: 0 :: 0 :: 0 :: rest) = .eof rest := by
    simp [decodeBlock, readBE]
  refine ⟨h1, ?_⟩
  simp [decodeStream, h1]

/-- Claim C5: a block whose stored compressed length equals its
uncompressed length decodes to exactly the stored payload bytes; the
result does not depend on the decompressor at all (no LZO decompression
pass is applied). -/
theorem C5_stored_block_identity (disable : Bool) (kin kout : LzoChecksum)
    (payload tail : List Nat)
    (hlen : 0 < payload.length) (hmax : payload.length ≤ MAX_BLOCK_COMPRESSED_SIZE)
    (hbytes : ∀ c ∈ payload, c < 256) :
    ∀ dec : Nat → List Nat → Option (List Nat),
      decodeBlock disable kin kout dec
        (mkBlockRaw kin kout payload.length (checksumVal kin payload) 0 payload ++ tail) =
        .blockOk payload tail := by
  intro dec
  rw [decode_mkBlockRaw disable kin kout dec payload.length _ _ payload tail hlen hmax
    hmax (checksumVal_lt kin payload hbytes) (by norm_num)]
  rw [if_pos rfl]
  have : Checksum disable kin (checksumVal kin payload) payload = true := by
    cases disable with
    | true => rfl
    | false => cases kin <;> simp [Checksum, checksumVal]
  rw [this]
  rfl

/-- Claim C5, witness: Scenario A flavour — a 3-byte block stored
uncompressed with CRC32 checksums decodes to the bytes unchanged. -/
theorem C5_witness :
    (0 : Nat) < [10, 20, 30].length ∧
    decodeBlock false .CHECK_CRC32 .CHECK_CRC32 (fun _ _ => none)
      (mkBlockRaw .CHECK_CRC32 .CHECK_CRC32 [10, 20, 30].length
        (checksumVal .CHECK_CRC32 [10, 20, 30]) 0 [10, 20, 30] ++ [5, 5]) =
      .blockOk [10, 20, 30] [5, 5] :=
  ⟨by decide,
    C5_stored_block_identity false .CHECK_CRC32 .CHECK_CRC32 [10, 20, 30] [5, 5]
      (by decide) (by decide) (by decide) (fun _ _ => none)⟩

/-- Claim C6: on a sorted non-empty block index, FindFirstBlock returns
the first (smallest) indexed block start at or after the target offset;
it returns not-found exactly when every block start is before the target
(the target is beyond the last block start), and not-found makes the range
report end of stream with zero rows produced. -/
theorem C6_find_first_block (offsets : List Int) (target : Int)
    (hne : offsets ≠ []) (hchain : List.Chain' (· < ·) offsets) :
    (∀ o, FindFirstBlock offsets target = some o →
      target ≤ o ∧ o ∈ offsets ∧ ∀ o₂ ∈ offsets, target ≤ o₂ → o ≤ o₂) ∧
    (FindFirstBlock offsets target = none ↔ ∀ o ∈ offsets, o < target) ∧
    (FindFirstBlock offsets target = none →
      ∀ decoded, scanRangeRows offsets target decoded = []) := by
  refine ⟨fun o h => find_first_block_min offsets target o hchain h, ?_, ?_⟩
  · simp [FindFirstBlock, List.find?_eq_none, decide_eq_true_eq, not_le]
  · intro h decoded
    simp [scanRangeRows, h]

/-- Claim C6, witness: index [10, 20], target 15 — the first block at or
after the target is 20. -/
theorem C6_witness :
    ([(10 : Int), 20] ≠ []) ∧
    ((∀ o, FindFirstBlock [(10 : Int), 20] 15 = some o →
        (15 : Int) ≤ o ∧ o ∈ [(10 : Int), 20] ∧
          ∀ o₂ ∈ [(10 : Int), 20], (15 : Int) ≤ o₂ → o ≤ o₂) ∧
      (FindFirstBlock [(10 : Int), 20] 15 = none ↔ ∀ o ∈ [(10 : Int), 20], o < 15) ∧
      (FindFirstBlock [(10 : Int), 20] 15 = none →
        ∀ decoded, scanRangeRows [(10 : Int), 20] 15 decoded = [])) :=
  ⟨by decide,
    C6_find_first_block [10, 20] 15 (by decide) (by norm_num [List.chain'_cons])⟩

/-- Claim C7: an absent index file yields the "no index" result, which is
not an error and marks the file non-splittable (a single non-splittable
range covers the data); a present index file parses as 8-byte big-endian
offsets, and any violation of strict ascent, of the header-length lower
bound, or of the 8-byte framing fails with FormatError, while a valid file
yields its offsets. -/
theorem C7_read_index_file (headerLen : Int) :
    (ReadIndexFile none headerLen = .noIndex ∧
      ReadIndexFile none headerLen ≠ .formatError ∧
      ∀ he fl : Int, IssueFileRanges he fl (headerOffsets (ReadIndexFile none headerLen)) =
        [{ startOffset := he, stopOffset := fl, splittable := false }]) ∧
    (∀ bytes offs, parseIndexOffsets bytes = some offs →
      (ascendingStrict offs = false ∨ ∃ o ∈ offs, o < headerLen) →
      ReadIndexFile (some bytes) headerLen = .formatError) ∧
    (∀ bytes, parseIndexOffsets bytes = none →
      ReadIndexFile (some bytes) headerLen = .formatError) ∧
    (∀ bytes offs, parseIndexOffsets bytes = some offs →
      ascendingStrict offs = true → (∀ o ∈ offs, headerLen ≤ o) →
      ReadIndexFile (some bytes) headerLen = .indexOffsets offs) := by
  refine ⟨⟨rfl, fun h => IndexResult.noConfusion h, fun he fl => rfl⟩, ?_, ?_, ?_⟩
  · intro bytes offs hparse hviol
    simp only [ReadIndexFile, hparse]
    rw [if_neg]
    intro hcond
    rw [Bool.and_eq_true] at hcond
    rcases hviol with hasc | ⟨o, ho, hlt⟩
    · rw [hasc] at hcond
      exact Bool.false_ne_true hcond.1
    · have := List.all_eq_true.mp hcond.2 o ho
      rw [decide_eq_true_eq] at this
      omega
  · intro bytes hparse
    simp [ReadIndexFile, hparse]
  · intro bytes offs hparse hasc hall
    simp only [ReadIndexFile, hparse]
    rw [if_pos]
    rw [Bool.and_eq_true]
    exact ⟨hasc, List.all_eq_true.mpr (fun o ho => decide_eq_true (hall o ho))⟩

/-- Claim C7, witness: an index file holding offsets [100, 50] (descending,
a strict-ascent violation) against header length 32 fails with
FormatError. -/
theorem C7_witness :
    parseIndexOffsets [0, 0, 0, 0, 0, 0, 0, 100, 0, 0, 0, 0, 0, 0, 0, 50] =
      some [100, 50] ∧
    ascendingStrict [100, 50] = false ∧
    ReadIndexFile (some [0, 0, 0, 0, 0, 0, 0, 100, 0, 0, 0, 0, 0, 0, 0, 50]) 32 =
      .formatError :=
  ⟨by decide, by decide,
    (C7_read_index_file 32).2.1 _ [100, 50] (by decide) (Or.inl (by decide))⟩

/-- Claim C8: when the block at the current position of a range is
corrupt, a scanner with an index recovers by continuing from the first
indexed block start past the suspect position — same accumulated rows (the
corrupted block's rows are skipped), no error surfaced by the step — while
a scanner with no index fails the range with DataCorruptionError; and
ranges are processed independently, so the outcome of any group of ranges
is unaffected by the other ranges of the same file. -/
theorem C8_corrupt_recovery (disable : Bool) (kin kout : LzoChecksum)
    (dec : Nat → List Nat → Option (List Nat)) (file : List Nat) (offsets : List Int)
    (endPos fuel pos : Nat) (acc : List (List Nat)) (o : Int)
    (hpos : pos < endPos)
    (hcorrupt : decodeBlock disable kin kout dec (file.drop pos) = .corrupt) :
    (offsets ≠ [] → FindFirstBlock offsets ((pos : Int) + 1) = some o →
      ReadData disable kin kout dec file offsets endPos (fuel + 1) pos acc =
        ReadData disable kin kout dec file offsets endPos fuel o.toNat acc) ∧
    (offsets = [] →
      ReadData disable kin kout dec file offsets endPos (fuel + 1) pos acc =
        .dataCorruptionError) ∧
    (∀ ranges₁ ranges₂ : List (Nat × Nat),
      processRanges disable kin kout dec file offsets fuel (ranges₁ ++ ranges₂) =
        processRanges disable kin kout dec file offsets fuel ranges₁ ++
          processRanges disable kin kout dec file offsets fuel ranges₂) := by
  have hle : ¬ endPos ≤ pos := by omega
  refine ⟨?_, ?_, ?_⟩
  · intro hne hfind
    have hemp : offsets.isEmpty = false := by
      cases offsets with
      | nil => exact absurd rfl hne
      | cons a t => rfl
    simp only [ReadData, hle, if_false, hcorrupt, hemp, Bool.false_eq_true,
      Int.ofNat_eq_coe, Nat.cast_add, Nat.cast_one, hfind]
  · intro hempty
    subst hempty
    simp [ReadData, hle, hcorrupt]
  · intro ranges₁ ranges₂
    simp [processRanges]

/-- Claim C8, witness: a file whose first block header is implausible
(0xFFFFFFFF uncompressed length, hence corrupt) with index [2]: the
decoder resumes at offset 2 without error. -/
theorem C8_witness :
    ReadData false .CHECK_CRC32 .CHECK_CRC32 (fun _ _ => none)
      [255, 255, 255, 255, 9, 9, 9] [2] 7 (2 + 1) 0 [] =
    ReadData false .CHECK_CRC32 .CHECK_CRC32 (fun _ _ => none)
      [255, 255, 255, 255, 9, 9, 9] [2] 7 2 ((2 : Int)).toNat [] :=
  (C8_corrupt_recovery false .CHECK_CRC32 .CHECK_CRC32 (fun _ _ => none)
    [255, 255, 255, 255, 9, 9, 9] [2] 7 2 0 [] 2 (by decide) (by decide)).1
    (by decide) (by decide)

/-- Claim C9: a decompressed buffer already attached to a downstream
consumer scope stays attached (same identity and bytes) and is never freed
by the scanner, whatever further decode and close steps the scanner takes
(fresh buffers per decode); on Close with a row batch the scanner's buffer
pool is attached to the batch and nothing is freed, and only on Close with
no row batch does the scanner itself free the pool. -/
theorem C9_buffer_ownership (st : ScannerMem) (buf : LzoBuffer) (ops : List ScanOp)
    (hatt : buf ∈ st.attached) (hpool : buf ∉ st.pool) (hfreed : buf ∉ st.freed)
    (hfresh : ∀ nb, ScanOp.decodeOp nb ∈ ops → nb ≠ buf) :
    (buf ∈ (runMem st ops).attached ∧ buf ∉ (runMem st ops).freed) ∧
    (∀ st₂ : ScannerMem,
      (CloseMem st₂ true).attached = st₂.attached ++ st₂.pool ∧
      (CloseMem st₂ true).freed = st₂.freed ∧
      (CloseMem st₂ false).attached = st₂.attached ∧
      (CloseMem st₂ false).freed = st₂.freed ++ st₂.pool) := by
  obtain ⟨ha, _, hf⟩ := runMem_inv st buf ops hatt hpool hfreed hfresh
  exact ⟨⟨ha, hf⟩, fun st₂ => ⟨rfl, rfl, rfl, rfl⟩⟩

/-- Claim C9, witness: buffer 0 already attached survives a further decode
(fresh buffer 2) and a batchless close, unfreed. -/
theorem C9_witness :
    LzoBuffer.mk 0 [9] ∈ (runMem ⟨[⟨1, [7]⟩], [⟨0, [9]⟩], []⟩
      [ScanOp.decodeOp ⟨2, [4]⟩, ScanOp.closeOp false]).attached ∧
    LzoBuffer.mk 0 [9] ∉ (runMem ⟨[⟨1, [7]⟩], [⟨0, [9]⟩], []⟩
      [ScanOp.decodeOp ⟨2, [4]⟩, ScanOp.closeOp false]).freed :=
  (C9_buffer_ownership ⟨[⟨1, [7]⟩], [⟨0, [9]⟩], []⟩ ⟨0, [9]⟩
    [ScanOp.decodeOp ⟨2, [4]⟩, ScanOp.closeOp false]
    (by decide) (by decide) (by decide)
    (by
      intro nb hnb
      simp only [List.mem_cons, List.not_mem_nil, or_false] at hnb
      rcases hnb with h | h
      · cases h
        decide
      · cases h)).1

/-- Claim C10: the scanner is constructed with `disable_checksum_` = true,
and with that flag every block-level checksum verification call succeeds
regardless of the checksum kind declared in the file header, the expected
value and the data — so the decode result of a block is independent of the
stored checksum values. -/
theorem C10_checksum_disabled :
    GetLzoTextScanner.disable_checksum_ = true ∧
    (∀ (t : LzoChecksum) (expected : Nat) (buffer : List Nat),
      Checksum GetLzoTextScanner.disable_checksum_ t expected buffer = true) ∧
    (∀ (kin kout : LzoChecksum) (dec : Nat → List Nat → Option (List Nat))
      (ulen i₁ i₂ o₁ o₂ : Nat) (payload tail : List Nat),
      0 < ulen → ulen ≤ MAX_BLOCK_COMPRESSED_SIZE →
      payload.length ≤ MAX_BLOCK_COMPRESSED_SIZE →
      i₁ < 2 ^ 32 → i₂ < 2 ^ 32 → o₁ < 2 ^ 32 → o₂ < 2 ^ 32 →
      decodeBlock GetLzoTextScanner.disable_checksum_ kin kout dec
        (mkBlockRaw kin kout ulen i₁ o₁ payload ++ tail) =
      decodeBlock GetLzoTextScanner.disable_checksum_ kin kout dec
        (mkBlockRaw kin kout ulen i₂ o₂ payload ++ tail)) := by
  refine ⟨rfl, fun t expected buffer => rfl, ?_⟩
  intro kin kout dec ulen i₁ i₂ o₁ o₂ payload tail h1 h2 h3 hi1 hi2 ho1 ho2
  rw [decode_mkBlockRaw _ kin kout dec ulen i₁ o₁ payload tail h1 h2 h3 hi1 ho1,
    decode_mkBlockRaw _ kin kout dec ulen i₂ o₂ payload tail h1 h2 h3 hi2 ho2]
  simp [Checksum, GetLzoTextScanner]

/-- Claim C10, witness: two stored checksum values (111/222 versus
999/888) give identical decode results under the constructed scanner. -/
theorem C10_witness :
    decodeBlock GetLzoTextScanner.disable_checksum_ .CHECK_CRC32 .CHECK_CRC32
      (fun _ _ => none) (mkBlockRaw .CHECK_CRC32 .CHECK_CRC32 3 111 222 [1, 2, 3] ++ []) =
    decodeBlock GetLzoTextScanner.disable_checksum_ .CHECK_CRC32 .CHECK_CRC32
      (fun _ _ => none) (mkBlockRaw .CHECK_CRC32 .CHECK_CRC32 3 999 888 [1, 2, 3] ++ []) :=
  C10_checksum_disabled.2.2 .CHECK_CRC32 .CHECK_CRC32 (fun _ _ => none) 3 111 999 222 888
    [1, 2, 3] [] (by decide) (by decide) (by decide) (by decide) (by decide) (by decide)
    (by decide)

end ImpalaLzo
